import Mathlib

/-!
Verification development for the vibechess repository.

The repository ships the wasm binding surface of the chess engine
(docs/pkg/chess.d.ts) and the worker message-dispatch script; the engine
itself is not part of the repository.  The dispatch layer below is embedded
directly from the worker source.  Engine components (position, move
generation, evaluation, search, game controller) are modelled from the
specification, as marked on each definition.
-/

/-! ## Core data model (modelled from the spec, §3) -/

inductive Color where
  | white
  | black
deriving DecidableEq, Repr

def Color.other : Color → Color
  | .white => .black
  | .black => .white

inductive PieceKind where
  | pawn
  | knight
  | bishop
  | rook
  | queen
  | king
deriving DecidableEq, Repr

structure Piece where
  kind : PieceKind
  color : Color
deriving DecidableEq, Repr

/-- Board: 8 rows of 8 optional pieces, row 0 being the white home rank. -/
abbrev Board := List (List (Option Piece))

def boardGet (b : Board) (s : Nat × Nat) : Option Piece :=
  ((b.get? s.1).bind (fun row => row.get? s.2)).join

def boardSet (b : Board) (s : Nat × Nat) (v : Option Piece) : Board :=
  match b.get? s.1 with
  | none => b
  | some row => b.set s.1 (row.set s.2 v)

/-- Modelled from the spec (§3 Position): piece placement, side to move,
four castling-rights booleans, en-passant target, half-move clock and
full-move number. -/
structure Position where
  board : Board
  turn : Color
  castleWK : Bool
  castleWQ : Bool
  castleBK : Bool
  castleBQ : Bool
  epTarget : Option (Nat × Nat)
  halfmove : Nat
  fullmove : Nat
deriving DecidableEq, Repr

/-- Modelled from the spec (§3 Move): origin, destination, optional promotion kind. -/
structure Move where
  fromSq : Nat × Nat
  toSq : Nat × Nat
  promotion : Option PieceKind
deriving DecidableEq, Repr

def backRank (c : Color) : List (Option Piece) :=
  [some ⟨.rook, c⟩, some ⟨.knight, c⟩, some ⟨.bishop, c⟩, some ⟨.queen, c⟩,
   some ⟨.king, c⟩, some ⟨.bishop, c⟩, some ⟨.knight, c⟩, some ⟨.rook, c⟩]

def pawnRank (c : Color) : List (Option Piece) := List.replicate 8 (some ⟨.pawn, c⟩)

def emptyRank : List (Option Piece) := List.replicate 8 none

/-- The standard chess starting position. -/
def startPosition : Position :=
  ⟨[backRank .white, pawnRank .white, emptyRank, emptyRank,
    emptyRank, emptyRank, pawnRank .black, backRank .black],
   .white, true, true, true, true, none, 0, 1⟩

/-! ## Attack detection (modelled from the spec, §4.1/§4.2) -/

def onBoard (r c : Int) : Bool := 0 ≤ r && r < 8 && 0 ≤ c && c < 8

def toSq (r c : Int) : Nat × Nat := (r.toNat, c.toNat)

def sqR (s : Nat × Nat) : Int := Int.ofNat s.1

def sqC (s : Nat × Nat) : Int := Int.ofNat s.2

def knightOffsets : List (Int × Int) :=
  [(1, 2), (2, 1), (2, -1), (1, -2), (-1, -2), (-2, -1), (-2, 1), (-1, 2)]

def kingOffsets : List (Int × Int) :=
  [(1, 0), (1, 1), (0, 1), (-1, 1), (-1, 0), (-1, -1), (0, -1), (1, -1)]

def rookDirs : List (Int × Int) := [(1, 0), (-1, 0), (0, 1), (0, -1)]

def bishopDirs : List (Int × Int) := [(1, 1), (1, -1), (-1, 1), (-1, -1)]

/-- First piece encountered walking from (r,c) in direction (dr,dc), with fuel. -/
def firstPieceInDir (b : Board) (dr dc : Int) : Int → Int → Nat → Option Piece
  | _, _, 0 => none
  | r, c, k + 1 =>
    let r2 := r + dr
    let c2 := c + dc
    if onBoard r2 c2 then
      match boardGet b (toSq r2 c2) with
      | some pc => some pc
      | none => firstPieceInDir b dr dc r2 c2 k
    else none

def pieceAtOffset (b : Board) (s : Nat × Nat) (o : Int × Int) : Option Piece :=
  let r2 := sqR s + o.1
  let c2 := sqC s + o.2
  if onBoard r2 c2 then boardGet b (toSq r2 c2) else none

/-- Modelled from the spec (§4.1 "is square attacked"): is square s attacked by a
piece of color a on board b. -/
def isAttacked (b : Board) (s : Nat × Nat) (a : Color) : Bool :=
  knightOffsets.any (fun o => decide (pieceAtOffset b s o = some ⟨.knight, a⟩))
  || kingOffsets.any (fun o => decide (pieceAtOffset b s o = some ⟨.king, a⟩))
  || (let dr : Int := if a = .white then -1 else 1
      decide (pieceAtOffset b s (dr, -1) = some ⟨.pawn, a⟩)
      || decide (pieceAtOffset b s (dr, 1) = some ⟨.pawn, a⟩))
  || rookDirs.any (fun d =>
       match firstPieceInDir b d.1 d.2 (sqR s) (sqC s) 7 with
       | some pc => decide (pc.color = a) && (decide (pc.kind = PieceKind.rook) || decide (pc.kind = PieceKind.queen))
       | none => false)
  || bishopDirs.any (fun d =>
       match firstPieceInDir b d.1 d.2 (sqR s) (sqC s) 7 with
       | some pc => decide (pc.color = a) && (decide (pc.kind = PieceKind.bishop) || decide (pc.kind = PieceKind.queen))
       | none => false)

def allSquares : List (Nat × Nat) :=
  (List.range 8).flatMap (fun r => (List.range 8).map (fun c => (r, c)))

def kingSquare (b : Board) (c : Color) : Option (Nat × Nat) :=
  allSquares.find? (fun s => decide (boardGet b s = some ⟨.king, c⟩))

/-- Modelled from the spec (§4.1): side c is in check on board b.  If the king is
absent (an internal invariant violation per §7, unreachable through legal play)
this returns false. -/
def inCheckB (b : Board) (c : Color) : Bool :=
  match kingSquare b c with
  | some s => isAttacked b s c.other
  | none => false

/-! ## Move generation (modelled from the spec, §4.2) -/

def promoKinds : List PieceKind := [.queen, .rook, .bishop, .knight]

def lastRank : Color → Nat
  | .white => 7
  | .black => 0

def pawnDir : Color → Int
  | .white => 1
  | .black => -1

def pawnStartRank : Color → Nat
  | .white => 1
  | .black => 6

/-- Pawn move(s) from f to t: four explicit promotion moves on reaching the back
rank (§4.2 edge cases), a single move otherwise. -/
def pawnMoveTo (f t : Nat × Nat) (c : Color) : List Move :=
  if t.1 = lastRank c then promoKinds.map (fun k => ⟨f, t, some k⟩) else [⟨f, t, none⟩]

/-- Modelled from the spec (§4.2): pawn pushes, double push from the start rank,
diagonal captures, en passant, promotion. -/
def pawnMoves (p : Position) (c : Color) (s : Nat × Nat) : List Move :=
  let r := sqR s
  let cc := sqC s
  let d := pawnDir c
  let fwd : List Move :=
    if onBoard (r + d) cc ∧ boardGet p.board (toSq (r + d) cc) = none then
      pawnMoveTo s (toSq (r + d) cc) c
      ++ (if s.1 = pawnStartRank c ∧ onBoard (r + 2 * d) cc
             ∧ boardGet p.board (toSq (r + 2 * d) cc) = none
          then [⟨s, toSq (r + 2 * d) cc, none⟩] else [])
    else []
  let caps := ([-1, 1] : List Int).flatMap (fun dc =>
    let r2 := r + d
    let c2 := cc + dc
    if onBoard r2 c2 then
      match boardGet p.board (toSq r2 c2) with
      | some pc => if pc.color = c.other then pawnMoveTo s (toSq r2 c2) c else []
      | none => if p.epTarget = some (toSq r2 c2) then [⟨s, toSq r2 c2, none⟩] else []
    else [])
  fwd ++ caps

/-- Non-sliding piece moves from a fixed offset list (knight, king). -/
def stepMoves (p : Position) (c : Color) (s : Nat × Nat) (offs : List (Int × Int)) : List Move :=
  offs.flatMap (fun o =>
    let r2 := sqR s + o.1
    let c2 := sqC s + o.2
    if onBoard r2 c2 then
      match boardGet p.board (toSq r2 c2) with
      | none => [⟨s, toSq r2 c2, none⟩]
      | some pc => if pc.color = c.other then [⟨s, toSq r2 c2, none⟩] else []
    else [])

/-- Sliding ray: stop at the first occupied square, capturing an opponent piece
(§4.2). -/
def rayMovesAux (b : Board) (c : Color) (s : Nat × Nat) (dr dc : Int) : Int → Int → Nat → List Move
  | _, _, 0 => []
  | r, cc, k + 1 =>
    let r2 := r + dr
    let c2 := cc + dc
    if onBoard r2 c2 then
      match boardGet b (toSq r2 c2) with
      | none => ⟨s, toSq r2 c2, none⟩ :: rayMovesAux b c s dr dc r2 c2 k
      | some pc => if pc.color = c.other then [⟨s, toSq r2 c2, none⟩] else []
    else []

def slideMoves (p : Position) (c : Color) (s : Nat × Nat) (dirs : List (Int × Int)) : List Move :=
  dirs.flatMap (fun d => rayMovesAux p.board c s d.1 d.2 (sqR s) (sqC s) 7)

def pieceMoves (p : Position) (c : Color) (s : Nat × Nat) : PieceKind → List Move
  | .pawn => pawnMoves p c s
  | .knight => stepMoves p c s knightOffsets
  | .bishop => slideMoves p c s bishopDirs
  | .rook => slideMoves p c s rookDirs
  | .queen => slideMoves p c s (rookDirs ++ bishopDirs)
  | .king => stepMoves p c s kingOffsets

/-- Modelled from the spec (§4.2): pseudo-legal moves of color c by standard
movement rules, castling handled separately. -/
def pseudoMovesFor (p : Position) (c : Color) : List Move :=
  allSquares.flatMap (fun s =>
    match boardGet p.board s with
    | some pc => if pc.color = c then pieceMoves p c s pc.kind else []
    | none => [])

def homeRank : Color → Nat
  | .white => 0
  | .black => 7

def castleRightK (p : Position) : Color → Bool
  | .white => p.castleWK
  | .black => p.castleBK

def castleRightQ (p : Position) : Color → Bool
  | .white => p.castleWQ
  | .black => p.castleBQ

/-- Modelled from the spec (§4.2): castling requires rights still held, king and
rook in place, empty squares between, king not in check, and king neither
passing through nor landing on an attacked square.  Castling is encoded as the
two-square king move. -/
def castleMoves (p : Position) (c : Color) : List Move :=
  let r := homeRank c
  let b := p.board
  let e := c.other
  let kingHome := decide (boardGet b (r, 4) = some ⟨.king, c⟩)
  let notInCheck := !(isAttacked b (r, 4) e)
  let kside :=
    if castleRightK p c && kingHome && notInCheck
       && decide (boardGet b (r, 7) = some ⟨.rook, c⟩)
       && decide (boardGet b (r, 5) = none) && decide (boardGet b (r, 6) = none)
       && !(isAttacked b (r, 5) e) && !(isAttacked b (r, 6) e)
    then [⟨(r, 4), (r, 6), none⟩] else []
  let qside :=
    if castleRightQ p c && kingHome && notInCheck
       && decide (boardGet b (r, 0) = some ⟨.rook, c⟩)
       && decide (boardGet b (r, 1) = none) && decide (boardGet b (r, 2) = none)
       && decide (boardGet b (r, 3) = none)
       && !(isAttacked b (r, 2) e) && !(isAttacked b (r, 3) e)
    then [⟨(r, 4), (r, 2), none⟩] else []
  kside ++ qside

/-! ## Move application (modelled from the spec, §4.1 apply) -/

/-- Modelled from the spec (§4.1): successor position.  Handles en-passant
capture, the castling rook move, promotion replacement, irreversible
castling-right updates, the en-passant target window, the half-move clock and
the full-move number.  Only ever invoked on members of the legal-move set; on a
vacant origin square the position is returned unchanged. -/
def applyMove (p : Position) (m : Move) : Position :=
  match boardGet p.board m.fromSq with
  | none => p
  | some pc =>
    let captured := boardGet p.board m.toSq
    let isPawn := decide (pc.kind = PieceKind.pawn)
    let isEp := isPawn && decide (m.fromSq.2 ≠ m.toSq.2) && decide (captured = none)
    let moved : Piece := match m.promotion with
      | some k => ⟨k, pc.color⟩
      | none => pc
    let b1 := boardSet p.board m.fromSq none
    let b2 := boardSet b1 m.toSq (some moved)
    let b3 := if isEp then boardSet b2 (m.fromSq.1, m.toSq.2) none else b2
    let dc := sqC m.toSq - sqC m.fromSq
    let isCastle := decide (pc.kind = PieceKind.king) && decide (dc * dc = 4)
    let b4 :=
      if isCastle then
        if m.toSq.2 = 6 then
          boardSet (boardSet b3 (m.fromSq.1, 7) none) (m.fromSq.1, 5) (some ⟨.rook, pc.color⟩)
        else
          boardSet (boardSet b3 (m.fromSq.1, 0) none) (m.fromSq.1, 3) (some ⟨.rook, pc.color⟩)
      else b3
    let kingOf := fun (col : Color) =>
      decide (pc.kind = PieceKind.king) && decide (pc.color = col)
    let touches := fun (s : Nat × Nat) => decide (m.fromSq = s) || decide (m.toSq = s)
    let wk := p.castleWK && !(kingOf .white) && !(touches (0, 7))
    let wq := p.castleWQ && !(kingOf .white) && !(touches (0, 0))
    let bk := p.castleBK && !(kingOf .black) && !(touches (7, 7))
    let bq := p.castleBQ && !(kingOf .black) && !(touches (7, 0))
    let dr := sqR m.toSq - sqR m.fromSq
    let ep := if isPawn && decide (dr * dr = 4)
              then some ((m.fromSq.1 + m.toSq.1) / 2, m.fromSq.2) else none
    let hm := if isPawn || decide (captured ≠ none) then 0 else p.halfmove + 1
    let fm := if p.turn = Color.black then p.fullmove + 1 else p.fullmove
    ⟨b4, p.turn.other, wk, wq, bk, bq, ep, hm, fm⟩

/-! ## Legal moves (modelled from the spec, §4.2) -/

def pseudoLegalMoves (p : Position) : List Move :=
  pseudoMovesFor p p.turn ++ castleMoves p p.turn

/-- Modelled from the spec (§4.2 legal_moves): pseudo-legal moves filtered by
simulate-and-check — any move leaving the mover's own king in check is
discarded. -/
def legal_moves (p : Position) : List Move :=
  (pseudoLegalMoves p).filter (fun m => !(inCheckB (applyMove p m).board p.turn))

/-- Modelled from the spec (§4.2 legal_moves_for_square): destinations of the
legal moves originating at the given square — the same filtering pass. -/
def legalMovesForSquare (p : Position) (r c : Nat) : List (Nat × Nat) :=
  ((legal_moves p).filter (fun m => decide (m.fromSq = (r, c)))).map (fun m => m.toSq)

/-- Positions reachable via legal play from the standard starting position. -/
inductive Reachable : Position → Prop where
  | start : Reachable startPosition
  | step {p : Position} {m : Move} :
      Reachable p → m ∈ legal_moves p → Reachable (applyMove p m)

/-- C5: for every position reachable via legal play from the standard starting
position, the legal-move set contains no move whose application leaves the
moving side's own king in check. -/
theorem c5_legal_moves_never_leave_own_king_in_check
    (p : Position) (m : Move) (hr : Reachable p) (hm : m ∈ legal_moves p) :
    inCheckB (applyMove p m).board p.turn = false := by
  have h := (List.mem_filter.mp hm).2
  simpa using h

/-- Witness for C5: the starting position is reachable, the double pawn push
e2-e4 is one of its legal moves, and it does not leave the white king in check. -/
theorem c5_witness :
    Reachable startPosition
    ∧ (⟨(1, 4), (3, 4), none⟩ : Move) ∈ legal_moves startPosition
    ∧ inCheckB (applyMove startPosition ⟨(1, 4), (3, 4), none⟩).board startPosition.turn = false :=
  ⟨Reachable.start, by decide,
   c5_legal_moves_never_leave_own_king_in_check _ _ Reachable.start (by decide)⟩

/-! ## Evaluation engine (modelled from the spec, §4.3) -/

def pieceValue : PieceKind → Int
  | .pawn => 100
  | .knight => 320
  | .bishop => 330
  | .rook => 500
  | .queen => 900
  | .king => 0

def colorSign : Color → Int
  | .white => 1
  | .black => -1

/-- Modelled from the spec (§2 "material balance"): summed piece values,
white-positive. -/
def materialScore (p : Position) : Int :=
  (allSquares.map (fun s =>
    match boardGet p.board s with
    | some pc => colorSign pc.color * pieceValue pc.kind
    | none => 0)).sum

/-- Modelled from the spec (§2 "piece mobility"): pseudo-legal move count
difference, white-positive. -/
def mobilityScore (p : Position) : Int :=
  (Int.ofNat (pseudoMovesFor p .white).length) - Int.ofNat (pseudoMovesFor p .black).length

def filePawns (p : Position) (c : Color) (file : Nat) : Nat :=
  ((List.range 8).filter
    (fun r => decide (boardGet p.board (r, file) = some ⟨.pawn, c⟩))).length

def doubledPawns (p : Position) (c : Color) : Nat :=
  ((List.range 8).map (fun f => filePawns p c f - 1)).sum

/-- Modelled from the spec (§2 "pawn structure"): doubled-pawn penalty,
white-positive. -/
def pawnStructureScore (p : Position) : Int :=
  20 * (Int.ofNat (doubledPawns p .black) - Int.ofNat (doubledPawns p .white))

/-- Modelled from the spec (§2 "king safety"): in-check penalty, white-positive. -/
def kingSafetyScore (p : Position) : Int :=
  (if inCheckB p.board .white then (-50 : Int) else 0)
  + (if inCheckB p.board .black then (50 : Int) else 0)

/-- Modelled from the spec (§4.3, §9): the fixed, ordered registry of named
evaluation modules. -/
def moduleNames : List String :=
  ["material", "mobility", "pawn_structure", "king_safety"]

/-- Modelled from the spec (§4.3): each named module is a pure function from
Position to a signed contribution. -/
def moduleFn : String → Position → Int
  | "material" => materialScore
  | "mobility" => mobilityScore
  | "pawn_structure" => pawnStructureScore
  | "king_safety" => kingSafetyScore
  | _ => fun _ => 0

/-- Modelled from the spec (§4.3 evaluate): the breakdown lists each
currently-enabled module's contribution; disabled modules are omitted.  The
total is the sum of the breakdown entries. -/
def evaluate (p : Position) (en : String → Bool) : List (String × Int) × Int :=
  let bd := (moduleNames.filter (fun n => en n)).map (fun n => (n, moduleFn n p))
  (bd, (bd.map (fun e => e.2)).sum)

/-- Toggling a module off in the configuration mapping (§9). -/
def disableModule (n : String) (en : String → Bool) : String → Bool :=
  fun m => if m = n then false else en m

def totalOn (l : List String) (en : String → Bool) (p : Position) : Int :=
  ((l.filter (fun n => en n)).map (fun n => moduleFn n p)).sum

def sumIf (l : List String) (en : String → Bool) (p : Position) : Int :=
  (l.map (fun n => if en n then moduleFn n p else 0)).sum

theorem totalOn_eq_sumIf (l : List String) (en : String → Bool) (p : Position) :
    totalOn l en p = sumIf l en p := by
  induction l with
  | nil => rfl
  | cons a t ih =>
    by_cases h : en a = true
    · simp [totalOn, sumIf, List.filter_cons, h] at ih ⊢
      simpa [totalOn, sumIf] using ih
    · simp [totalOn, sumIf, List.filter_cons, h] at ih ⊢
      simpa [totalOn, sumIf] using ih

theorem sumIf_disable (l : List String) (p : Position) (n : String) (en : String → Bool)
    (hnd : l.Nodup) (hmem : n ∈ l) (hen : en n = true) :
    sumIf l en p = sumIf l (disableModule n en) p + moduleFn n p := by
  induction l with
  | nil => cases hmem
  | cons a t ih =>
    have hat : a ∉ t := (List.nodup_cons.mp hnd).1
    have hndt : t.Nodup := (List.nodup_cons.mp hnd).2
    simp only [sumIf, List.map_cons, List.sum_cons] at ih ⊢
    rcases List.mem_cons.mp hmem with rfl | hmt
    · have ht : t.map (fun m => if disableModule n en m then moduleFn m p else 0)
              = t.map (fun m => if en m then moduleFn m p else 0) := by
        apply List.map_congr_left
        intro x hx
        have hxn : x ≠ n := fun h => hat (h ▸ hx)
        simp [disableModule, hxn]
      rw [ht]
      have hdn : disableModule n en n = false := by simp [disableModule]
      rw [hen, hdn]
      simp
      ring
    · have han : a ≠ n := fun h => hat (h ▸ hmt)
      have ihh := ih hndt hmt
      have hda : disableModule n en a = en a := by simp [disableModule, han]
      rw [hda, ihh]
      ring

theorem totalOn_disable (l : List String) (p : Position) (n : String) (en : String → Bool)
    (hnd : l.Nodup) (hmem : n ∈ l) (hen : en n = true) :
    totalOn l en p = totalOn l (disableModule n en) p + moduleFn n p := by
  rw [totalOn_eq_sumIf, totalOn_eq_sumIf]
  exact sumIf_disable l p n en hnd hmem hen

/-- C6: the evaluation total equals the sum of the enabled modules'
contributions, a disabled module's entry is omitted from the breakdown, and
disabling an enabled module changes the total by exactly its prior
contribution, all else equal. -/
theorem c6_evaluation_breakdown_modular
    (p : Position) (en : String → Bool) (n : String)
    (hmem : n ∈ moduleNames) (hen : en n = true) :
    (evaluate p en).2 = ((evaluate p en).1.map (fun e => e.2)).sum
    ∧ (∀ m : String, en m = false → m ∉ (evaluate p en).1.map (fun e => e.1))
    ∧ (evaluate p en).2 = (evaluate p (disableModule n en)).2 + moduleFn n p := by
  refine ⟨rfl, ?_, ?_⟩
  · intro m hm hmm
    simp only [evaluate, List.map_map, List.mem_map, Function.comp] at hmm
    rcases hmm with ⟨x, hx, hxm⟩
    rcases List.mem_filter.mp hx with ⟨_, hxen⟩
    rw [hxm] at hxen
    rw [hm] at hxen
    cases hxen
  · have hev : ∀ f : String → Bool, (evaluate p f).2 = totalOn moduleNames f p := by
      intro f
      simp only [evaluate, totalOn, List.map_map]
      rfl
    rw [hev, hev]
    exact totalOn_disable moduleNames p n en (by decide) hmem hen

/-- Witness for C6 with all modules enabled and the material module toggled. -/
theorem c6_witness :
    (evaluate startPosition (fun _ => true)).2
      = ((evaluate startPosition (fun _ => true)).1.map (fun e => e.2)).sum
    ∧ (evaluate startPosition (fun _ => true)).2
      = (evaluate startPosition (disableModule "material" (fun _ => true))).2
        + moduleFn "material" startPosition :=
  ⟨(c6_evaluation_breakdown_modular startPosition (fun _ => true) "material" (by decide) rfl).1,
   (c6_evaluation_breakdown_modular startPosition (fun _ => true) "material" (by decide) rfl).2.2⟩

/-! ## Search engine (modelled from the spec, §4.4) -/

/-- Modelled from the spec (§4.4, §7): no legal moves is not an error but a
defined result — checkmate scored with a large magnitude against the side to
move, stalemate as zero.  White-positive sign convention throughout. -/
def terminalScore (p : Position) : Int :=
  if inCheckB p.board p.turn then
    (if p.turn = Color.white then -100000 else 100000)
  else 0

def evalTotal (p : Position) (en : String → Bool) : Int := (evaluate p en).2

/-- Strict-improvement comparison: later moves replace the incumbent only on a
strictly better score, giving the deterministic first-in-generation-order
tie-break of §4.4. -/
def better (c : Color) (x y : Int) : Bool :=
  match c with
  | .white => decide (y < x)
  | .black => decide (x < y)

/-- Modelled from the spec (§4.4): bounded-depth minimax over legal moves, the
Evaluation Engine invoked at each leaf (depth exhausted or terminal position),
returning (score, number of evaluations performed). -/
def minimax (en : String → Bool) : Position → Nat → Int × Nat
  | p, 0 => (evalTotal p en, 1)
  | p, d + 1 =>
    match legal_moves p with
    | [] => (terminalScore p, 1)
    | m :: ms =>
      let r0 := minimax en (applyMove p m) d
      ms.foldl (fun acc mv =>
        let r := minimax en (applyMove p mv) d
        ((if better p.turn r.1 acc.1 then r.1 else acc.1), acc.2 + r.2))
        (r0.1, r0.2)

/-- Modelled from the spec (§3 SearchResult): chosen move (null when none is
legal), score, evaluation count, and the depth actually reached. -/
structure SearchResult where
  move : Option Move
  score : Int
  evals : Nat
  depthReached : Nat
deriving DecidableEq, Repr

/-- Modelled from the spec (§4.4 search): fixed-depth root search with the
first-in-generation-order tie-break; a null move with the terminal evaluation
when no legal moves exist. -/
def searchFixed (p : Position) (en : String → Bool) (d : Nat) : SearchResult :=
  match legal_moves p with
  | [] => ⟨none, terminalScore p, 1, d⟩
  | m :: ms =>
    let r0 := minimax en (applyMove p m) (d - 1)
    let best := ms.foldl (fun acc mv =>
      let r := minimax en (applyMove p mv) (d - 1)
      if better p.turn r.1 acc.2.1 then (mv, r.1, acc.2.2 + r.2)
      else (acc.1, acc.2.1, acc.2.2 + r.2))
      (m, r0.1, r0.2)
    ⟨some best.1, best.2.1, best.2.2, d⟩

/-- The hard safety ceiling on auto-deepened depth mandated by §9 (exact value
an implementation choice). -/
def hardDepthCeiling : Nat := 6

/-- Modelled from the spec (§4.4 auto-deepen): after a completed fixed-depth
search with fewer than minEvals evaluations, increase depth by one and
re-search, until the count meets the threshold or the hard safety ceiling on
depth is reached. -/
def autoDeepenLoop (p : Position) (en : String → Bool) (minEvals : Nat) : Nat → Nat → SearchResult
  | d, 0 => searchFixed p en d
  | d, fuel + 1 =>
    let r := searchFixed p en d
    if minEvals ≤ r.evals ∨ hardDepthCeiling ≤ d then r
    else autoDeepenLoop p en minEvals (d + 1) fuel

/-- Modelled from the spec (§3 EngineConfig): depth, per-module enabled flags,
auto-deepen flag and threshold. -/
structure EngineConfig where
  depth : Nat
  enabled : String → Bool
  autoDeepen : Bool
  minEvals : Nat

/-- Modelled from the spec (§4.4 depth control): fixed-depth mode searches the
configured depth; auto-deepen mode runs the deepening loop from it. -/
def searchWithConfig (p : Position) (cfg : EngineConfig) : SearchResult :=
  if cfg.autoDeepen then
    autoDeepenLoop p cfg.enabled cfg.minEvals cfg.depth (hardDepthCeiling + 1)
  else searchFixed p cfg.enabled cfg.depth

theorem searchFixed_depthReached (p : Position) (en : String → Bool) (d : Nat) :
    (searchFixed p en d).depthReached = d := by
  cases h : legal_moves p <;> simp [searchFixed, h]

theorem autoDeepenLoop_meets_threshold (p : Position) (en : String → Bool) (minEvals : Nat) :
    ∀ fuel d, hardDepthCeiling < d + fuel →
      minEvals ≤ (autoDeepenLoop p en minEvals d fuel).evals
      ∨ hardDepthCeiling ≤ (autoDeepenLoop p en minEvals d fuel).depthReached := by
  intro fuel
  induction fuel with
  | zero =>
    intro d hd
    right
    show hardDepthCeiling ≤ (searchFixed p en d).depthReached
    rw [searchFixed_depthReached]
    omega
  | succ fuel ih =>
    intro d hd
    by_cases h : minEvals ≤ (searchFixed p en d).evals ∨ hardDepthCeiling ≤ d
    · have hres : autoDeepenLoop p en minEvals d (fuel + 1) = searchFixed p en d := by
        simp only [autoDeepenLoop, if_pos h]
      rw [hres]
      rcases h with h | h
      · exact Or.inl h
      · right
        rw [searchFixed_depthReached]
        exact h
    · have hres : autoDeepenLoop p en minEvals d (fuel + 1)
          = autoDeepenLoop p en minEvals (d + 1) fuel := by
        simp only [autoDeepenLoop, if_neg h]
      rw [hres]
      exact ih (d + 1) (by omega)

/-! ## Game controller (modelled from the spec, §4.5) and transport values -/

/-- JavaScript values crossing the worker boundary, as far as the dispatch
layer observes them: primitives plus the transport-friendly shapes of the
engine's structured results (§6). -/
inductive JsValue where
  | null
  | bool (b : Bool)
  | num (n : Int)
  | bigint (n : Nat)
  | str (s : String)
  | errorVal (e : String)
  | squares (l : List (Nat × Nat))
  | boardState (p : Position)
  | breakdown (entries : List (String × Int)) (total : Int)
  | aiResult (p : Position) (mv : Option Move) (score : Int) (evals : Nat) (depth : Nat)
  | hintResult (mv : Option Move) (score : Int) (evals : Nat) (depth : Nat)
deriving DecidableEq, Repr

/-- Modelled from the spec (§4.5): the single stateful handle — current
position, move history, engine configuration, and the retained count of the
last completed configured search (§4.4). -/
structure Game where
  pos : Position
  history : List Move
  config : EngineConfig
  lastEvals : Nat

/-- Modelled from the spec (§4.5 new): standard starting position, default
depth, all modules enabled, auto-deepen disabled. -/
def Game.new : Game :=
  ⟨startPosition, [], ⟨3, fun _ => true, false, 1⟩, 0⟩

def promoKindOfString : String → Option PieceKind
  | "queen" => some .queen
  | "rook" => some .rook
  | "bishop" => some .bishop
  | "knight" => some .knight
  | _ => none

/-- Modelled from the spec (§4.5 make_move, §4.2 edge cases): the requested
move must be a member of the legal-move set for the origin square filtered to
the destination; a promoting move without an explicit promotion argument
resolves to queen promotion.  An illegal request is signaled by an error value
and leaves the state unchanged (§7). -/
def Game.make_move (g : Game) (fr fc tr tc : Nat) (promo : Option String) : Game × JsValue :=
  let cands := (legal_moves g.pos).filter
    (fun m => decide (m.fromSq = (fr, fc)) && decide (m.toSq = (tr, tc)))
  let chosen :=
    if cands.any (fun mv => decide (mv.promotion ≠ none)) then
      cands.find? (fun mv =>
        decide (mv.promotion = some ((promo.bind promoKindOfString).getD PieceKind.queen)))
    else cands.head?
  match chosen with
  | none => (g, .errorVal "illegal move")
  | some mv =>
    let p2 := applyMove g.pos mv
    (⟨p2, g.history ++ [mv], g.config, g.lastEvals⟩, .boardState p2)

/-- Modelled from the spec (§4.5 make_ai_move): run the configured search,
retain its evaluation count for get_last_evals, apply the chosen move; with no
legal move, signal game over without mutating position or history. -/
def Game.make_ai_move (g : Game) : Game × JsValue :=
  let r := searchWithConfig g.pos g.config
  match r.move with
  | none =>
    (⟨g.pos, g.history, g.config, r.evals⟩,
     .aiResult g.pos none r.score r.evals r.depthReached)
  | some mv =>
    let p2 := applyMove g.pos mv
    (⟨p2, g.history ++ [mv], g.config, r.evals⟩,
     .aiResult p2 (some mv) r.score r.evals r.depthReached)

def Game.get_board_state (g : Game) : JsValue := .boardState g.pos

def Game.get_eval_breakdown (g : Game) : JsValue :=
  .breakdown (evaluate g.pos g.config.enabled).1 (evaluate g.pos g.config.enabled).2

/-- Modelled from the spec (§4.4 hint): the fixed-depth search at the
explicitly supplied depth, overriding configured depth and auto-deepen for
this call only, without mutating any controller state. -/
def Game.get_hint (g : Game) (depth : Nat) : JsValue :=
  .hintResult (searchFixed g.pos g.config.enabled depth).move
    (searchFixed g.pos g.config.enabled depth).score
    (searchFixed g.pos g.config.enabled depth).evals
    (searchFixed g.pos g.config.enabled depth).depthReached

def Game.get_last_evals (g : Game) : Nat := g.lastEvals

def Game.get_legal_moves_for_square (g : Game) (r c : Nat) : JsValue :=
  .squares (legalMovesForSquare g.pos r c)

/-- Modelled from the spec (§4.3, §7): an unknown module name is an
invalid-configuration condition, signaled by an error value with the prior
configuration retained. -/
def Game.set_module (g : Game) (name : String) (enabled : Bool) : Game × JsValue :=
  if name ∈ moduleNames then
    (⟨g.pos, g.history,
      ⟨g.config.depth, fun m => if m = name then enabled else g.config.enabled m,
       g.config.autoDeepen, g.config.minEvals⟩, g.lastEvals⟩, .null)
  else (g, .errorVal ("unknown module: " ++ name))

/-- Modelled from the spec (§7): a non-positive depth is an
invalid-configuration condition, signaled with the prior configuration
retained. -/
def Game.set_depth (g : Game) (depth : Int) : Game × JsValue :=
  if depth ≤ 0 then (g, .errorVal "invalid depth")
  else
    (⟨g.pos, g.history,
      ⟨depth.toNat, g.config.enabled, g.config.autoDeepen, g.config.minEvals⟩,
      g.lastEvals⟩, .null)

/-- Modelled from the spec (§4.4): toggle auto-deepen mode and its
minimum-evaluations threshold. -/
def Game.set_auto_deepen (g : Game) (enabled : Bool) (minEvals : Nat) : Game × JsValue :=
  (⟨g.pos, g.history,
    ⟨g.config.depth, g.config.enabled, enabled, minEvals⟩, g.lastEvals⟩, .null)

/-- C7: with auto-deepen enabled at threshold N, after the configured search
completes the retrievable last-evaluation count is at least N, unless the
search terminated because the hard safety ceiling on depth was reached. -/
theorem c7_auto_deepen_meets_min_evals (g : Game)
    (had : g.config.autoDeepen = true) :
    g.config.minEvals ≤ Game.get_last_evals (Game.make_ai_move g).1
    ∨ hardDepthCeiling ≤ (searchWithConfig g.pos g.config).depthReached := by
  have hlast : Game.get_last_evals (Game.make_ai_move g).1
      = (searchWithConfig g.pos g.config).evals := by
    unfold Game.make_ai_move Game.get_last_evals
    cases hm : (searchWithConfig g.pos g.config).move <;> simp [hm]
  rw [hlast]
  simp only [searchWithConfig, had, if_true]
  exact autoDeepenLoop_meets_threshold g.pos g.config.enabled g.config.minEvals
    (hardDepthCeiling + 1) g.config.depth (by omega)

/-- A game with auto-deepen enabled at threshold 1 and depth 1. -/
def autoGame : Game := ⟨startPosition, [], ⟨1, fun _ => true, true, 1⟩, 0⟩

/-- Witness for C7 at a concrete auto-deepened game. -/
theorem c7_witness :
    autoGame.config.autoDeepen = true
    ∧ (autoGame.config.minEvals ≤ Game.get_last_evals (Game.make_ai_move autoGame).1
       ∨ hardDepthCeiling ≤ (searchWithConfig autoGame.pos autoGame.config).depthReached) :=
  ⟨rfl, c7_auto_deepen_meets_min_evals autoGame rfl⟩

/-! ## ECMAScript Number conversion of a bigint (for the worker's
Number(game.get_last_evals()) line) -/

/-- Fuel-driven binary logarithm (structural recursion, so that the kernel can
evaluate it). -/
def log2fuel : Nat → Nat → Nat
  | 0, _ => 0
  | f + 1, n => if n < 2 then 0 else log2fuel f (n / 2) + 1

def jsLog2 (n : Nat) : Nat := log2fuel n n

theorem log2fuel_lt (f : Nat) : ∀ n k, 0 < k → n < 2 ^ k → log2fuel f n < k := by
  induction f with
  | zero =>
    intro n k hk _
    simpa [log2fuel] using hk
  | succ f ih =>
    intro n k hk hn
    by_cases h2 : n < 2
    · simpa [log2fuel, h2] using hk
    · have hk2 : 2 ≤ k := by
        rcases Nat.lt_or_ge k 2 with hlt | hge
        · exfalso
          have hk1 : k = 1 := by omega
          rw [hk1, pow_one] at hn
          omega
        · exact hge
      have hpow : 2 ^ k = 2 * 2 ^ (k - 1) := by
        conv_lhs => rw [show k = (k - 1) + 1 by omega]
        ring
      have hdiv : n / 2 < 2 ^ (k - 1) := by omega
      have hrec := ih (n / 2) (k - 1) (by omega) hdiv
      simp only [log2fuel, h2, if_false]
      omega

/-- The ECMAScript Number conversion of a non-negative bigint: the value of the
nearest IEEE-754 double, i.e. rounding to 53 significant bits, ties to even.
Overflow to infinity (from 2^1024 on, far beyond any 64-bit evaluation count)
is not modelled. -/
def numberOfBigInt (g : Nat) : Nat :=
  if g = 0 then 0
  else
    let e := jsLog2 g - 52
    let q := g / 2 ^ e
    let r := g % 2 ^ e
    let q2 := if 2 ^ e < 2 * r ∨ (2 * r = 2 ^ e ∧ q % 2 = 1) then q + 1 else q
    q2 * 2 ^ e

theorem numberOfBigInt_exact (g : Nat) (hg : g ≤ 2 ^ 53) : numberOfBigInt g = g := by
  by_cases h0 : g = 0
  · simp [numberOfBigInt, h0]
  · by_cases h53 : g = 2 ^ 53
    · subst h53
      decide
    · have hlt : g < 2 ^ 53 := lt_of_le_of_ne hg h53
      have hlog : jsLog2 g < 53 := log2fuel_lt g g 53 (by omega) hlt
      have he : jsLog2 g - 52 = 0 := by omega
      simp [numberOfBigInt, h0, he, Nat.mod_one, Nat.div_one]

/-! ## Message-dispatch layer (embedded from the worker source) -/

/-- A request message as destructured by the worker: const ⟨id, method, args⟩. -/
structure Request where
  id : Nat
  method : String
  args : List JsValue
deriving DecidableEq, Repr

/-- A message the worker posts back: postMessage with [id, result] or
[id, error]. -/
inductive OutMsg where
  | response (id : Nat) (result : JsValue)
  | errMsg (id : Nat) (error : String)
deriving DecidableEq, Repr

/-- The worker's single mutable binding: let game = null. -/
structure WorkerState where
  game : Option Game

/-- Outcome of one handle(msg) invocation: a normal return, or an uncaught
exception propagating out of handle.  posted lists the messages posted before
returning or throwing; calls traces the engine invocations made, as (method
name, raw engine-returned value) pairs. -/
inductive HandleResult where
  | ok (st : WorkerState) (posted : List OutMsg) (calls : List (String × JsValue))
  | threw (st : WorkerState) (posted : List OutMsg) (calls : List (String × JsValue))

def HandleResult.state : HandleResult → WorkerState
  | .ok st _ _ => st
  | .threw st _ _ => st

def HandleResult.posted : HandleResult → List OutMsg
  | .ok _ p _ => p
  | .threw _ p _ => p

def HandleResult.calls : HandleResult → List (String × JsValue)
  | .ok _ _ c => c
  | .threw _ _ c => c

def HandleResult.isOk : HandleResult → Bool
  | .ok _ _ _ => true
  | .threw _ _ _ => false

def asNat : Option JsValue → Nat
  | some (.num n) => n.toNat
  | some (.bigint n) => n
  | _ => 0

def asInt : Option JsValue → Int
  | some (.num n) => n
  | some (.bigint n) => Int.ofNat n
  | _ => 0

def asBool : Option JsValue → Bool
  | some (.bool b) => b
  | _ => false

def asStr : Option JsValue → String
  | some (.str s) => s
  | _ => ""

def asStrOpt : Option JsValue → Option String
  | some (.str s) => some s
  | _ => none

/-- The known engine-backed methods of the worker's switch (every known case
except new_game). -/
def engineMethodNames : List String :=
  ["get_board_state", "make_move", "make_ai_move", "get_hint",
   "get_legal_moves_for_square", "get_eval_breakdown", "get_last_evals",
   "set_module", "set_depth", "set_auto_deepen"]

def knownMethods : List String := "new_game" :: engineMethodNames

/-- The engine call a known non-new_game case of the worker's switch makes:
the updated game, the value the worker binds to result (null after the setter
calls, Number of the bigint for get_last_evals, the returned value otherwise),
and the raw engine-returned value. -/
def dispatchEngine (g : Game) (method : String) (args : List JsValue) :
    Game × JsValue × JsValue :=
  if method = "get_board_state" then
    (g, Game.get_board_state g, Game.get_board_state g)
  else if method = "make_move" then
    let r := Game.make_move g (asNat (args.get? 0)) (asNat (args.get? 1))
      (asNat (args.get? 2)) (asNat (args.get? 3)) (asStrOpt (args.get? 4))
    (r.1, r.2, r.2)
  else if method = "make_ai_move" then
    let r := Game.make_ai_move g
    (r.1, r.2, r.2)
  else if method = "get_hint" then
    (g, Game.get_hint g (asNat (args.get? 0)), Game.get_hint g (asNat (args.get? 0)))
  else if method = "get_legal_moves_for_square" then
    (g, Game.get_legal_moves_for_square g (asNat (args.get? 0)) (asNat (args.get? 1)),
     Game.get_legal_moves_for_square g (asNat (args.get? 0)) (asNat (args.get? 1)))
  else if method = "get_eval_breakdown" then
    (g, Game.get_eval_breakdown g, Game.get_eval_breakdown g)
  else if method = "get_last_evals" then
    (g, .num (Int.ofNat (numberOfBigInt (Game.get_last_evals g))),
     .bigint (Game.get_last_evals g))
  else if method = "set_module" then
    let r := Game.set_module g (asStr (args.get? 0)) (asBool (args.get? 1))
    (r.1, .null, r.2)
  else if method = "set_depth" then
    let r := Game.set_depth g (asInt (args.get? 0))
    (r.1, .null, r.2)
  else if method = "set_auto_deepen" then
    let r := Game.set_auto_deepen g (asBool (args.get? 0)) (asNat (args.get? 1))
    (r.1, .null, r.2)
  else (g, .null, .null)

/-- Embedded from the worker source, function handle(msg): switch on method.
new_game assigns the handle and posts a null result; every other known case
calls the engine through the current handle — a TypeError when the handle is
still null, modelled as threw with nothing posted — then posts [id, result];
an unknown method posts [id, error] and returns early.  The engine itself
signals recoverable errors as returned values (§7), so engine calls do not
throw here. -/
def handle (st : WorkerState) (msg : Request) : HandleResult :=
  if msg.method = "new_game" then
    .ok ⟨some Game.new⟩ [.response msg.id .null] []
  else if msg.method ∈ engineMethodNames then
    match st.game with
    | none => .threw st [] []
    | some g =>
      let r := dispatchEngine g msg.method msg.args
      .ok ⟨some r.1⟩ [.response msg.id r.2.1] [(msg.method, r.2.2)]
  else
    .ok st [.errMsg msg.id ("unknown method: " ++ msg.method)] []

/-- Initial worker state: let game = null. -/
def initWorker : WorkerState := ⟨none⟩

/-- Worker state after handling a sequence of messages (onmessage drives
handle once per message, in order). -/
def runWorker (msgs : List Request) : WorkerState :=
  msgs.foldl (fun st m => (handle st m).state) initWorker

/-- All engine invocations made while handling a message sequence from a given
state. -/
def runCallsFrom : WorkerState → List Request → List (String × JsValue)
  | _, [] => []
  | st, m :: ms => (handle st m).calls ++ runCallsFrom (handle st m).state ms

/-- C1, evaluated at the failing input: with a live game, a set_module request
naming an unknown module makes the engine signal an invalid-configuration
error value, yet the worker binds result = null after the setter call and
posts a success-shaped response — no posted message carries the error, so the
engine-signaled error is not surfaced to the caller as the spec requires. -/
theorem c1_setter_error_swallowed :
    (handle ⟨some Game.new⟩ ⟨7, "set_module", [.str "bogus", .bool true]⟩).calls
      = [("set_module", .errorVal ("unknown module: " ++ "bogus"))]
    ∧ (handle ⟨some Game.new⟩ ⟨7, "set_module", [.str "bogus", .bool true]⟩).posted
      = [.response 7 .null] := by
  constructor <;> rfl

/-- Reduction of handle on a new_game request. -/
theorem handle_new_game_eq (st : WorkerState) (msg : Request)
    (hmth : msg.method = "new_game") :
    handle st msg = .ok ⟨some Game.new⟩ [.response msg.id .null] [] := by
  simp only [handle]
  rw [if_pos hmth]

/-- Reduction of handle on an engine-backed request with a live handle. -/
theorem handle_engine_eq (st : WorkerState) (g : Game) (msg : Request)
    (hst : st.game = some g) (hne : ¬ msg.method = "new_game")
    (hmem : msg.method ∈ engineMethodNames) :
    handle st msg
      = .ok ⟨some (dispatchEngine g msg.method msg.args).1⟩
          [.response msg.id (dispatchEngine g msg.method msg.args).2.1]
          [(msg.method, (dispatchEngine g msg.method msg.args).2.2)] := by
  simp only [handle]
  rw [if_neg hne, if_pos hmem, hst]

/-- Reduction of handle on an engine-backed request with a null handle: the
TypeError propagates and nothing is posted. -/
theorem handle_engine_null_eq (st : WorkerState) (msg : Request)
    (hst : st.game = none) (hne : ¬ msg.method = "new_game")
    (hmem : msg.method ∈ engineMethodNames) :
    handle st msg = .threw st [] [] := by
  simp only [handle]
  rw [if_neg hne, if_pos hmem, hst]

/-- Reduction of handle on an unknown method. -/
theorem handle_unknown_eq (st : WorkerState) (msg : Request)
    (hne : ¬ msg.method = "new_game") (hmem : msg.method ∉ engineMethodNames) :
    handle st msg = .ok st [.errMsg msg.id ("unknown method: " ++ msg.method)] [] := by
  simp only [handle]
  rw [if_neg hne, if_neg hmem]

/-- C2: a known method whose handling runs to completion (live handle, or the
method is new_game) yields exactly one posted response carrying the request
id; the result is null for new_game and the setters, the engine's raw return
value for the value-returning methods, and the Number conversion of the
engine's bigint for get_last_evals. -/
theorem c2_one_response_per_completed_request
    (st : WorkerState) (g : Game) (msg : Request)
    (hknown : msg.method ∈ knownMethods)
    (hg : st.game = some g ∨ msg.method = "new_game") :
    ∃ r, (handle st msg).posted = [.response msg.id r]
      ∧ ((msg.method = "new_game" ∨ msg.method = "set_module" ∨ msg.method = "set_depth"
           ∨ msg.method = "set_auto_deepen") → r = .null)
      ∧ ((msg.method = "get_board_state" ∨ msg.method = "make_move"
           ∨ msg.method = "make_ai_move" ∨ msg.method = "get_hint"
           ∨ msg.method = "get_legal_moves_for_square" ∨ msg.method = "get_eval_breakdown")
          → r = (dispatchEngine g msg.method msg.args).2.2)
      ∧ (msg.method = "get_last_evals"
          → r = .num (Int.ofNat (numberOfBigInt (Game.get_last_evals g)))) := by
  obtain ⟨i, mth, args⟩ := msg
  simp only [knownMethods, engineMethodNames, List.mem_cons, List.not_mem_nil, or_false] at hknown
  rcases hknown with h | h | h | h | h | h | h | h | h | h | h <;> subst h
  · refine ⟨.null, ?_, fun _ => rfl, ?_, ?_⟩
    · rw [handle_new_game_eq st _ rfl]
      rfl
    · intro hc; simp at hc
    · intro hc; simp at hc
  · have hst : st.game = some g := hg.resolve_right (by simp)
    refine ⟨(dispatchEngine g "get_board_state" args).2.1, ?_, ?_, ?_, ?_⟩
    · rw [handle_engine_eq st g ⟨i, "get_board_state", args⟩ hst (by simp) (by simp [engineMethodNames])]
      rfl
    · intro hc; simp at hc
    · intro _; simp [dispatchEngine]
    · intro hc; simp at hc
  · have hst : st.game = some g := hg.resolve_right (by simp)
    refine ⟨(dispatchEngine g "make_move" args).2.1, ?_, ?_, ?_, ?_⟩
    · rw [handle_engine_eq st g ⟨i, "make_move", args⟩ hst (by simp) (by simp [engineMethodNames])]
      rfl
    · intro hc; simp at hc
    · intro _; simp [dispatchEngine]
    · intro hc; simp at hc
  · have hst : st.game = some g := hg.resolve_right (by simp)
    refine ⟨(dispatchEngine g "make_ai_move" args).2.1, ?_, ?_, ?_, ?_⟩
    · rw [handle_engine_eq st g ⟨i, "make_ai_move", args⟩ hst (by simp) (by simp [engineMethodNames])]
      rfl
    · intro hc; simp at hc
    · intro _; simp [dispatchEngine]
    · intro hc; simp at hc
  · have hst : st.game = some g := hg.resolve_right (by simp)
    refine ⟨(dispatchEngine g "get_hint" args).2.1, ?_, ?_, ?_, ?_⟩
    · rw [handle_engine_eq st g ⟨i, "get_hint", args⟩ hst (by simp) (by simp [engineMethodNames])]
      rfl
    · intro hc; simp at hc
    · intro _; simp [dispatchEngine]
    · intro hc; simp at hc
  · have hst : st.game = some g := hg.resolve_right (by simp)
    refine ⟨(dispatchEngine g "get_legal_moves_for_square" args).2.1, ?_, ?_, ?_, ?_⟩
    · rw [handle_engine_eq st g ⟨i, "get_legal_moves_for_square", args⟩ hst (by simp) (by simp [engineMethodNames])]
      rfl
    · intro hc; simp at hc
    · intro _; simp [dispatchEngine]
    · intro hc; simp at hc
  · have hst : st.game = some g := hg.resolve_right (by simp)
    refine ⟨(dispatchEngine g "get_eval_breakdown" args).2.1, ?_, ?_, ?_, ?_⟩
    · rw [handle_engine_eq st g ⟨i, "get_eval_breakdown", args⟩ hst (by simp) (by simp [engineMethodNames])]
      rfl
    · intro hc; simp at hc
    · intro _; simp [dispatchEngine]
    · intro hc; simp at hc
  · have hst : st.game = some g := hg.resolve_right (by simp)
    refine ⟨(dispatchEngine g "get_last_evals" args).2.1, ?_, ?_, ?_, ?_⟩
    · rw [handle_engine_eq st g ⟨i, "get_last_evals", args⟩ hst (by simp) (by simp [engineMethodNames])]
      rfl
    · intro hc; simp at hc
    · intro hc; simp at hc
    · intro _; simp [dispatchEngine]
  · have hst : st.game = some g := hg.resolve_right (by simp)
    refine ⟨(dispatchEngine g "set_module" args).2.1, ?_, ?_, ?_, ?_⟩
    · rw [handle_engine_eq st g ⟨i, "set_module", args⟩ hst (by simp) (by simp [engineMethodNames])]
      rfl
    · intro _; simp [dispatchEngine]
    · intro hc; simp at hc
    · intro hc; simp at hc
  · have hst : st.game = some g := hg.resolve_right (by simp)
    refine ⟨(dispatchEngine g "set_depth" args).2.1, ?_, ?_, ?_, ?_⟩
    · rw [handle_engine_eq st g ⟨i, "set_depth", args⟩ hst (by simp) (by simp [engineMethodNames])]
      rfl
    · intro _; simp [dispatchEngine]
    · intro hc; simp at hc
    · intro hc; simp at hc
  · have hst : st.game = some g := hg.resolve_right (by simp)
    refine ⟨(dispatchEngine g "set_auto_deepen" args).2.1, ?_, ?_, ?_, ?_⟩
    · rw [handle_engine_eq st g ⟨i, "set_auto_deepen", args⟩ hst (by simp) (by simp [engineMethodNames])]
      rfl
    · intro _; simp [dispatchEngine]
    · intro hc; simp at hc
    · intro hc; simp at hc

/-- Witness for C2: a get_board_state request against a fresh game. -/
theorem c2_witness :
    ∃ r, (handle ⟨some Game.new⟩ ⟨3, "get_board_state", []⟩).posted
        = [.response (3 : Nat) r]
      ∧ (((⟨3, "get_board_state", []⟩ : Request).method = "new_game"
           ∨ (⟨3, "get_board_state", []⟩ : Request).method = "set_module"
           ∨ (⟨3, "get_board_state", []⟩ : Request).method = "set_depth"
           ∨ (⟨3, "get_board_state", []⟩ : Request).method = "set_auto_deepen") → r = .null)
      ∧ (((⟨3, "get_board_state", []⟩ : Request).method = "get_board_state"
           ∨ (⟨3, "get_board_state", []⟩ : Request).method = "make_move"
           ∨ (⟨3, "get_board_state", []⟩ : Request).method = "make_ai_move"
           ∨ (⟨3, "get_board_state", []⟩ : Request).method = "get_hint"
           ∨ (⟨3, "get_board_state", []⟩ : Request).method = "get_legal_moves_for_square"
           ∨ (⟨3, "get_board_state", []⟩ : Request).method = "get_eval_breakdown")
          → r = (dispatchEngine Game.new "get_board_state" []).2.2)
      ∧ ((⟨3, "get_board_state", []⟩ : Request).method = "get_last_evals"
          → r = .num (Int.ofNat (numberOfBigInt (Game.get_last_evals Game.new)))) :=
  c2_one_response_per_completed_request ⟨some Game.new⟩ Game.new ⟨3, "get_board_state", []⟩
    (by decide) (Or.inl rfl)

/-- C3: an unknown method is answered by exactly one posted message carrying
the request id and an error string naming the offending method; no engine call
is made, the game handle is unchanged, and handling returns normally (no
process termination). -/
theorem c3_unknown_method_error_response
    (st : WorkerState) (msg : Request)
    (hu : msg.method ∉ knownMethods) :
    handle st msg = .ok st [.errMsg msg.id ("unknown method: " ++ msg.method)] [] := by
  simp only [knownMethods, List.mem_cons, not_or] at hu
  exact handle_unknown_eq st msg hu.1 hu.2

/-- Witness for C3 at a concrete unknown method. -/
theorem c3_witness :
    (⟨9, "frobnicate", []⟩ : Request).method ∉ knownMethods
    ∧ handle ⟨none⟩ ⟨9, "frobnicate", []⟩
      = .ok ⟨none⟩ [.errMsg 9 ("unknown method: " ++ "frobnicate")] [] :=
  ⟨by decide, c3_unknown_method_error_response ⟨none⟩ ⟨9, "frobnicate", []⟩ (by decide)⟩

/-! ## Handle-lifecycle lemmas (for C8 and C10) -/

theorem handle_game_isSome (st : WorkerState) (m : Request) :
    (handle st m).state.game.isSome
      = (decide (m.method = "new_game") || st.game.isSome) := by
  by_cases h1 : m.method = "new_game"
  · rw [handle_new_game_eq st m h1]
    simp [h1, HandleResult.state]
  · by_cases h2 : m.method ∈ engineMethodNames
    · cases hgm : st.game with
      | none =>
        rw [handle_engine_null_eq st m hgm h1 h2]
        simp [h1, hgm, HandleResult.state]
      | some g =>
        rw [handle_engine_eq st g m hgm h1 h2]
        simp [h1, hgm, HandleResult.state]
    · rw [handle_unknown_eq st m h1 h2]
      simp [h1, HandleResult.state]

theorem foldl_handle_isSome (msgs : List Request) (st : WorkerState)
    (h : st.game.isSome = true) :
    (msgs.foldl (fun s m => (handle s m).state) st).game.isSome = true := by
  induction msgs generalizing st with
  | nil => exact h
  | cons m ms ih =>
    apply ih
    rw [handle_game_isSome]
    simp [h]

theorem foldl_handle_some_of_new_game (msgs : List Request) (st : WorkerState)
    (h : ∃ m ∈ msgs, m.method = "new_game") :
    (msgs.foldl (fun s m => (handle s m).state) st).game.isSome = true := by
  induction msgs generalizing st with
  | nil =>
    rcases h with ⟨m, hm, _⟩
    cases hm
  | cons m ms ih =>
    rcases h with ⟨q, hq, hqm⟩
    rcases List.mem_cons.mp hq with rfl | hqt
    · rw [List.foldl_cons]
      apply foldl_handle_isSome
      rw [handle_game_isSome, hqm]
      simp
    · exact ih _ ⟨q, hqt, hqm⟩

theorem handle_game_none (st : WorkerState) (m : Request)
    (h : st.game = none) (hm : ¬ m.method = "new_game") :
    (handle st m).state.game = none := by
  by_cases h2 : m.method ∈ engineMethodNames
  · rw [handle_engine_null_eq st m h hm h2]
    exact h
  · rw [handle_unknown_eq st m hm h2]
    exact h

theorem foldl_handle_none (msgs : List Request) (st : WorkerState)
    (h : st.game = none) (hm : ∀ m ∈ msgs, ¬ m.method = "new_game") :
    (msgs.foldl (fun s m => (handle s m).state) st).game = none := by
  induction msgs generalizing st with
  | nil => exact h
  | cons m ms ih =>
    exact ih _ (handle_game_none st m h (hm m (List.mem_cons_self m ms)))
      (fun q hq => hm q (List.mem_cons_of_mem m hq))

/-- C8: the engine handle starts null and is assigned only when new_game is
handled — after any message sequence containing a new_game the handle is
non-null and an engine-backed dispatch takes the normal non-throwing path,
whereas an engine-backed method handled before any new_game dereferences the
null handle: the handler throws and posts no response for that request. -/
theorem c8_null_handle_discipline
    (msgs noNew : List Request) (q : Request)
    (hng : ∃ m ∈ msgs, m.method = "new_game")
    (hnn : ∀ m ∈ noNew, ¬ m.method = "new_game")
    (hq : q.method ∈ engineMethodNames) :
    initWorker.game = none
    ∧ (runWorker msgs).game.isSome = true
    ∧ (handle (runWorker msgs) q).isOk = true
    ∧ (runWorker noNew).game = none
    ∧ handle (runWorker noNew) q = .threw (runWorker noNew) [] [] := by
  have hqne : ¬ q.method = "new_game" := by
    intro he
    rw [he] at hq
    exact absurd hq (by decide)
  have h2 : (runWorker msgs).game.isSome = true :=
    foldl_handle_some_of_new_game msgs initWorker hng
  have h4 : (runWorker noNew).game = none :=
    foldl_handle_none noNew initWorker rfl hnn
  refine ⟨rfl, h2, ?_, h4, handle_engine_null_eq _ q h4 hqne hq⟩
  rcases hsome : (runWorker msgs).game with _ | g
  · rw [hsome] at h2
    cases h2
  · rw [handle_engine_eq (runWorker msgs) g q hsome hqne hq]
    rfl

/-- Witness for C8: one new_game then get_board_state, against the empty
no-new_game sequence. -/
theorem c8_witness :
    initWorker.game = none
    ∧ (runWorker [⟨0, "new_game", []⟩]).game.isSome = true
    ∧ (handle (runWorker [⟨0, "new_game", []⟩]) ⟨1, "get_board_state", []⟩).isOk = true
    ∧ (runWorker ([] : List Request)).game = none
    ∧ handle (runWorker ([] : List Request)) ⟨1, "get_board_state", []⟩
      = .threw (runWorker ([] : List Request)) [] [] :=
  c8_null_handle_discipline [⟨0, "new_game", []⟩] [] ⟨1, "get_board_state", []⟩
    ⟨⟨0, "new_game", []⟩, List.mem_cons_self _ _, rfl⟩ (fun m hm => by cases hm) (by decide)

/-- C9: the dispatcher posts the Number conversion of the engine's bigint for
get_last_evals; the conversion round-trips exactly for every count up to 2^53,
and differs from the engine's count at some count above 2^53. -/
theorem c9_get_last_evals_number_conversion
    (st : WorkerState) (g : Game) (i : Nat) (args : List JsValue) (n : Nat)
    (hg : st.game = some g) (hn : n ≤ 2 ^ 53) :
    (handle st ⟨i, "get_last_evals", args⟩).posted
      = [.response i (.num (Int.ofNat (numberOfBigInt (Game.get_last_evals g))))]
    ∧ numberOfBigInt n = n
    ∧ 2 ^ 53 < 2 ^ 53 + 1 ∧ numberOfBigInt (2 ^ 53 + 1) ≠ 2 ^ 53 + 1 := by
  refine ⟨?_, numberOfBigInt_exact n hn, by omega, by decide⟩
  rw [handle_engine_eq st g ⟨i, "get_last_evals", args⟩ hg (by simp) (by simp [engineMethodNames])]
  rfl

/-- Witness for C9 against a fresh game and the in-range count 42. -/
theorem c9_witness :
    (handle ⟨some Game.new⟩ ⟨3, "get_last_evals", []⟩).posted
      = [.response 3 (.num (Int.ofNat (numberOfBigInt (Game.get_last_evals Game.new))))]
    ∧ numberOfBigInt 42 = 42
    ∧ 2 ^ 53 < 2 ^ 53 + 1 ∧ numberOfBigInt (2 ^ 53 + 1) ≠ 2 ^ 53 + 1 :=
  c9_get_last_evals_number_conversion ⟨some Game.new⟩ Game.new 3 [] 42 rfl (by decide)

theorem handle_calls_engine (st : WorkerState) (m : Request) (c : String × JsValue)
    (hc : c ∈ (handle st m).calls) : c.1 ∈ engineMethodNames := by
  by_cases h1 : m.method = "new_game"
  · rw [handle_new_game_eq st m h1] at hc
    cases hc
  · by_cases h2 : m.method ∈ engineMethodNames
    · cases hgm : st.game with
      | none =>
        rw [handle_engine_null_eq st m hgm h1 h2] at hc
        cases hc
      | some g =>
        rw [handle_engine_eq st g m hgm h1 h2] at hc
        rcases List.mem_cons.mp hc with rfl | hfalse
        · exact h2
        · cases hfalse
    · rw [handle_unknown_eq st m h1 h2] at hc
      cases hc

theorem runCallsFrom_engine (msgs : List Request) (st : WorkerState)
    (c : String × JsValue) (hc : c ∈ runCallsFrom st msgs) :
    c.1 ∈ engineMethodNames := by
  induction msgs generalizing st with
  | nil => cases hc
  | cons m ms ih =>
    simp only [runCallsFrom] at hc
    rcases List.mem_append.mp hc with h | h
    · exact handle_calls_engine st m c h
    · exact ih _ h

/-- C10: the dispatcher never invokes Game.free or the Symbol.dispose alias —
every engine call it ever makes, in a single handled message and across whole
message sequences, is one of the command methods — and handling a second
new_game simply overwrites the handle with a fresh Game, making no engine call
at all (in particular not releasing the previous instance). -/
theorem c10_never_frees
    (msgs : List Request) (st sq : WorkerState) (m mq : Request) (g : Game)
    (c0 c1 : String × JsValue)
    (h1 : c0 ∈ (handle st m).calls)
    (h2 : c1 ∈ runCallsFrom initWorker msgs)
    (h3 : sq.game = some g) (h4 : mq.method = "new_game") :
    (c0.1 ∈ engineMethodNames ∧ c0.1 ≠ "free" ∧ c0.1 ≠ "Symbol.dispose")
    ∧ (c1.1 ∈ engineMethodNames ∧ c1.1 ≠ "free" ∧ c1.1 ≠ "Symbol.dispose")
    ∧ handle sq mq = .ok ⟨some Game.new⟩ [.response mq.id .null] [] := by
  have e0 := handle_calls_engine st m c0 h1
  have e1 := runCallsFrom_engine msgs initWorker c1 h2
  refine ⟨⟨e0, ?_, ?_⟩, ⟨e1, ?_, ?_⟩, handle_new_game_eq sq mq h4⟩
  · intro he
    rw [he] at e0
    exact absurd e0 (by decide)
  · intro he
    rw [he] at e0
    exact absurd e0 (by decide)
  · intro he
    rw [he] at e1
    exact absurd e1 (by decide)
  · intro he
    rw [he] at e1
    exact absurd e1 (by decide)

/-- Witness for C10: a concrete engine call and a concrete two-message
sequence, plus a second new_game against a live handle. -/
theorem c10_witness :
    ((("get_board_state", JsValue.boardState startPosition) : String × JsValue).1
        ∈ engineMethodNames
      ∧ (("get_board_state", JsValue.boardState startPosition) : String × JsValue).1 ≠ "free"
      ∧ (("get_board_state", JsValue.boardState startPosition) : String × JsValue).1
        ≠ "Symbol.dispose")
    ∧ ((("get_board_state", JsValue.boardState startPosition) : String × JsValue).1
        ∈ engineMethodNames
      ∧ (("get_board_state", JsValue.boardState startPosition) : String × JsValue).1 ≠ "free"
      ∧ (("get_board_state", JsValue.boardState startPosition) : String × JsValue).1
        ≠ "Symbol.dispose")
    ∧ handle ⟨some Game.new⟩ ⟨2, "new_game", []⟩
      = .ok ⟨some Game.new⟩ [.response 2 .null] [] :=
  c10_never_frees [⟨0, "new_game", []⟩, ⟨1, "get_board_state", []⟩]
    ⟨some Game.new⟩ ⟨some Game.new⟩ ⟨1, "get_board_state", []⟩ ⟨2, "new_game", []⟩
    Game.new ("get_board_state", JsValue.boardState startPosition)
    ("get_board_state", JsValue.boardState startPosition)
    (by decide) (by decide) rfl rfl

/-! ## Binding surface (embedded from docs/pkg/chess.d.ts) -/

/-- The Game class members declared in docs/pkg/chess.d.ts (lines 4-18):
name, required-argument count, optional-argument count. -/
def gameClassMembers : List (String × Nat × Nat) :=
  [("free", 0, 0), ("Symbol.dispose", 0, 0), ("get_board_state", 0, 0),
   ("get_eval_breakdown", 0, 0), ("get_hint", 1, 0), ("get_last_evals", 0, 0),
   ("get_legal_moves_for_square", 2, 0), ("make_ai_move", 0, 0),
   ("make_move", 4, 1), ("constructor", 0, 0), ("set_auto_deepen", 2, 0),
   ("set_depth", 1, 0), ("set_module", 2, 0)]

/-- The module-level plain function declared in docs/pkg/chess.d.ts (wasm
loader entry points initSync and the default init aside): build_timestamp,
callable without any instance. -/
def moduleLevelFunctions : List (String × Nat × Nat) := [("build_timestamp", 0, 0)]

/-- Follows the spec's words (§6): the no-argument constructor together with
the ten listed commands. -/
def specCommandSurface : List (String × Nat × Nat) :=
  [("constructor", 0, 0), ("make_move", 4, 1), ("make_ai_move", 0, 0),
   ("get_board_state", 0, 0), ("get_legal_moves_for_square", 2, 0),
   ("get_hint", 1, 0), ("get_eval_breakdown", 0, 0), ("get_last_evals", 0, 0),
   ("set_module", 2, 0), ("set_depth", 1, 0), ("set_auto_deepen", 2, 0)]

/-- C4 counterexample: the binding surface is not exactly the spec's command
set — the Game class also declares the wasm memory-release member free (with
the Symbol.dispose alias), absent from the claim's enumeration, so the
declared members are not all within the enumerated set. -/
theorem c4_counterexample :
    gameClassMembers.contains ("free", 0, 0) = true
    ∧ specCommandSurface.contains ("free", 0, 0) = false
    ∧ gameClassMembers.all (fun m => specCommandSurface.contains m) = false := by
  refine ⟨?_, ?_, ?_⟩ <;> decide

/-- C4 amended: the binding surface exposes at least the spec's command set —
every spec command with matching arity, the no-argument constructor, and the
instance-independent build_timestamp — and the only Game members beyond the
command set are the wasm memory-release pair free and Symbol.dispose. -/
theorem c4_amended_surface :
    specCommandSurface.all (fun m => gameClassMembers.contains m) = true
    ∧ moduleLevelFunctions.contains ("build_timestamp", 0, 0) = true
    ∧ gameClassMembers.all (fun m =>
        specCommandSurface.contains m
        || decide (m.1 = "free") || decide (m.1 = "Symbol.dispose")) = true := by
  refine ⟨?_, ?_, ?_⟩ <;> decide
